import Mathlib

/-!
Verification of the region-aggregation and overlap-resolution logic of
src/etl/steps/data/garden/bp/2022-07-14/bp_statistical_review.py.

A pandas dataframe is embedded as a list of rows; each row carries the
country column, the year column, and the remaining (variable) columns as an
association list from column name to an optional numeric value (None encodes
pandas NaN; numeric values are modelled as integers).
-/

namespace BpReview

/-- One dataframe row: country, year, and the data columns (None = NaN). -/
structure Row where
  country : String
  year : Int
  values : List (String × Option Int)
deriving DecidableEq, Repr

/-- Look up a column value in a row's association list (first match wins,
as in a dataframe where column names are unique); a missing column reads
as NaN. -/
def lookupVal (v : String) : List (String × Option Int) → Option (Option Int)
  | [] => none
  | kv :: rest => if kv.1 = v then some kv.2 else lookupVal v rest

def getVal (r : Row) (v : String) : Option Int :=
  (lookupVal v r.values).getD none

/-- Overwrite the value of column v in a row (all entries with that name,
mirroring a dataframe column assignment). -/
def setVal (v : String) (x : Option Int) (r : Row) : Row :=
  { r with values := r.values.map (fun kv => if kv.1 = v then (kv.1, x) else kv) }

/-- The entity_to_make_nan field of a known-overlap record: it names either
the "region" key or the "member" key of the record. -/
inductive EntityToNull where
  | region
  | member
deriving DecidableEq, Repr

/-- A known-overlap record, as in OVERLAPPING_DATA_TO_REMOVE_IN_AGGREGATES:
keys region, member, entity_to_make_nan, years, variable. -/
structure Overlap where
  region : String
  member : String
  entity_to_make_nan : EntityToNull
  years : List Int
  var_name : String
deriving DecidableEq, Repr

/-- The entity whose values the overlap record designates for nulling:
overlap[overlap["entity_to_make_nan"]]. -/
def desig (o : Overlap) : String :=
  match o.entity_to_make_nan with
  | .region => o.region
  | .member => o.member

/-- replace(overlapping_values_to_ignore, np.nan) applied to one value:
with ignore_zeros, a 0 becomes NaN. -/
def zf (x : Option Int) (iz : Bool) : Option Int :=
  if iz ∧ x = some 0 then none else x

/-- The year entry of a row after the same replace pass: with ignore_zeros
a year equal to 0 becomes NaN (None); otherwise the year itself. -/
def keyOf (iz : Bool) (r : Row) : Option Int :=
  if iz ∧ r.year = 0 then none else some r.year

/-- Membership of a row in the remover's duplicated_rows candidate set:
country is the overlap's region or member, and the value of the overlap's
variable is non-NaN after the zero replacement (dropna(subset=variable)). -/
def filtP (o : Overlap) (iz : Bool) (r : Row) : Bool :=
  (r.country = o.region ∨ r.country = o.member) ∧ (zf (getVal r o.var_name) iz).isSome

/-- Number of candidate rows sharing a given year key
(duplicated(subset="year", keep=False) marks a row iff this count is at
least 2 for its key). -/
def countKey (df : List Row) (o : Overlap) (iz : Bool) (k : Option Int) : Nat :=
  (df.filter (filtP o iz)).countP (fun r => keyOf iz r = k)

/-- A row the remover sets to NaN: a duplicated candidate row belonging to
the designated entity. -/
def selectP (df : List Row) (o : Overlap) (iz : Bool) (r : Row) : Bool :=
  filtP o iz r ∧ r.country = desig o ∧ 2 ≤ countKey df o iz (keyOf iz r)

/-- set([overlap["region"], overlap["member"]]) <= set(df["country"]). -/
def present (df : List Row) (o : Overlap) : Bool :=
  (df.any (fun r => r.country = o.region)) ∧ (df.any (fun r => r.country = o.member))

/-- Processing of one known-overlap entry by
remove_overlapping_data_for_regions_and_members: skipped entirely when the
region or the member is absent from the country column; otherwise the
designated entity's variable value is set to NaN on every duplicated row. -/
def remove_overlap_step (df : List Row) (o : Overlap) (iz : Bool) : List Row :=
  if present df o then
    df.map (fun r => if selectP df o iz r then setVal o.var_name none r else r)
  else
    df

/-- Insertion into a sorted list of Ints. -/
def insertInt (x : Int) : List Int → List Int
  | [] => [x]
  | y :: ys => if x ≤ y then x :: y :: ys else y :: insertInt x ys

/-- Ascending sort, as Python sorted(). -/
def sortInts (l : List Int) : List Int := l.foldr insertInt []

/-- Order on optional years placing NaN first (only used to present the
recomputed overlapping-year keys as a sorted list). -/
def optLe (a b : Option Int) : Bool :=
  match a, b with
  | none, _ => true
  | some _, none => false
  | some x, some y => x ≤ y

def insertKey (x : Option Int) : List (Option Int) → List (Option Int)
  | [] => [x]
  | y :: ys => if optLe x y then x :: y :: ys else y :: insertKey x ys

def sortKeys (l : List (Option Int)) : List (Option Int) := l.foldr insertKey []

/-- sorted(set(duplicated_rows["year"])): the year keys of the remover's
duplicated candidate rows, deduplicated and sorted. -/
def overlapKeysR (df : List Row) (o : Overlap) (iz : Bool) : List (Option Int) :=
  sortKeys ((((df.filter (filtP o iz)).map (keyOf iz)).dedup).filter
    (fun k => 2 ≤ countKey df o iz k))

/-- Whether processing one known-overlap entry emits the stale-documentation
warning: only inside the presence branch, when the recomputed overlapping
years differ from the declared ones. -/
def remove_overlap_step_warn (df : List Row) (o : Overlap) (iz : Bool) : Bool :=
  if present df o then decide (overlapKeysR df o iz ≠ o.years.map some) else false

/-- The fold of the per-entry step over a known-overlaps list. -/
def removeAll (os : List Overlap) (df : List Row) (iz : Bool) : List Row :=
  os.foldl (fun acc o => remove_overlap_step acc o iz) df

/-- remove_overlapping_data_for_regions_and_members: fold the per-entry
step over the known-overlaps list (None leaves the data untouched). -/
def remove_overlapping_data_for_regions_and_members
    (df : List Row) (known_overlaps : Option (List Overlap)) (iz : Bool) : List Row :=
  match known_overlaps with
  | none => df
  | some os => removeAll os df iz

/-- Value of the first row with the given country and year (NaN when no such
row exists); on data with unique (country, year) pairs this is the value of
the (country, year) cell. -/
def valueAt (df : List Row) (c : String) (y : Int) (v : String) : Option Int :=
  match df with
  | [] => none
  | r :: rest => if r.country = c ∧ r.year = y then getVal r v else valueAt rest c y v

/-- The rows of combined = concat(region_df[[year, variable]],
member_df[[year, variable]]).dropna() in the detector: zeros were replaced
by NaN in every column of the per-country frames, and dropna (with no
subset) drops a row whose year or value is NaN. -/
def combined_pairs (df : List Row) (rg mem v : String) (iz : Bool) : List (Int × Int) :=
  ((df.filter (fun r => r.country = rg)) ++ (df.filter (fun r => r.country = mem))).filterMap
    (fun r => match keyOf iz r, zf (getVal r v) iz with
      | some y, some a => some (y, a)
      | _, _ => none)

/-- sorted(set(overlapping["year"])) in the detector: years appearing at
least twice among the combined rows. -/
def detect_overlap_years (df : List Row) (rg mem v : String) (iz : Bool) : List Int :=
  sortInts ((((combined_pairs df rg mem v iz).map Prod.fst).dedup).filter
    (fun y => 2 ≤ (combined_pairs df rg mem v iz).countP (fun p => p.1 = y)))

/-- Whether a country's sub-frame keeps a column after
replace(zeros, NaN).dropna(axis=1, how="all"): some row of that country has
a non-NaN (and, with ignore_zeros, non-zero) value in it. -/
def column_has_data (df : List Row) (c v : String) (iz : Bool) : Bool :=
  (df.filter (fun r => r.country = c)).any (fun r => (zf (getVal r v) iz).isSome)

/-- A Python value appearing in the detector's new_overlap dict: a string
(region, member, variable) or a list of ints (years). -/
inductive PyVal where
  | pstr (s : String)
  | pints (l : List Int)
deriving DecidableEq, Repr

/-- A Python object compared by the detector's known-overlap membership
test: new_overlap is a dict; each element of _known_overlaps is the SET of
key names produced by the comprehension
set(key for key in overlap if key != "entity_to_make_nan"). -/
inductive PyItem where
  | pdict (entries : List (String × PyVal))
  | pset (keys : List String)
deriving DecidableEq, Repr

/-- One-sided dict inclusion (order-insensitive, as Python dict equality). -/
def dictSubset (da db : List (String × PyVal)) : Bool :=
  da.all (fun kv => (lookupPy kv.1 db) = some kv.2)
where
  lookupPy (k : String) : List (String × PyVal) → Option PyVal
    | [] => none
    | kv :: rest => if kv.1 = k then some kv.2 else lookupPy k rest

/-- Python == on the two shapes: dicts compare as maps, sets as sets, and a
dict never equals a set. -/
def pyEqItem (a b : PyItem) : Bool :=
  match a, b with
  | .pdict da, .pdict db => dictSubset da db && dictSubset db da
  | .pset sa, .pset sb =>
      (sa.all (fun k => sb.contains k)) && (sb.all (fun k => sa.contains k))
  | _, _ => false

/-- The element of _known_overlaps built from one known-overlap entry:
the comprehension iterates the dict's keys and keeps every key other than
entity_to_make_nan, yielding a set of key names. -/
def overlap_key_item (_o : Overlap) : PyItem :=
  .pset ["region", "member", "years", "variable"]

/-- The new_overlap dict built by the detector for a detected overlap. -/
def new_overlap_item (rg mem : String) (ys : List Int) (v : String) : PyItem :=
  .pdict [("region", .pstr rg), ("member", .pstr mem),
          ("years", .pints ys), ("variable", .pstr v)]

/-- The detector's membership test: new_overlap in _known_overlaps. -/
def py_overlap_known (rg mem : String) (ys : List Int) (v : String)
    (known : List Overlap) : Bool :=
  (known.map overlap_key_item).any (fun it => pyEqItem (new_overlap_item rg mem ys v) it)

/-- The membership test the surrounding comment describes: the detected
overlap equals a known entry on every field other than entity_to_make_nan. -/
def intended_overlap_known (rg mem : String) (ys : List Int) (v : String)
    (known : List Overlap) : Bool :=
  known.any (fun o => o.region = rg ∧ o.member = mem ∧ o.years = ys ∧ o.var_name = v)

/-- One emitted warning of
detect_overlapping_data_for_regions_and_members: the region, member,
variable and overlapping years it reports. -/
structure DetectedOverlap where
  region : String
  member : String
  years : List Int
  var_name : String
deriving DecidableEq, Repr

/-- The detector's nested loops: for every region of regions_and_members,
every member of that region, and every shared non-index column with data on
both sides, report the overlapping years when they are non-empty and the
membership test fails. -/
def detect_warnings (df : List Row) (cols index_columns : List String)
    (ram : List (String × List String)) (known : List Overlap) (iz : Bool) :
    List DetectedOverlap :=
  ram.foldl (fun acc rm =>
    acc ++ rm.2.foldl (fun acc2 mem =>
      acc2 ++ (cols.filter (fun v =>
          ¬ v ∈ index_columns ∧
          column_has_data df rm.1 v iz ∧ column_has_data df mem v iz)).filterMap
        (fun v =>
          let ys := detect_overlap_years df rm.1 mem v iz
          if ys ≠ [] ∧ ¬ py_overlap_known rm.1 mem ys v known then
            some { region := rm.1, member := mem, years := ys, var_name := v }
          else none)) []) []

/-- detect_overlapping_data_for_regions_and_members: does nothing when
known_overlaps is None, otherwise emits the warnings of the nested loops. -/
def detect_overlapping_data_for_regions_and_members (df : List Row)
    (cols index_columns : List String) (ram : List (String × List String))
    (known_overlaps : Option (List Overlap)) (iz : Bool) : List DetectedOverlap :=
  match known_overlaps with
  | none => []
  | some ks => detect_warnings df cols index_columns ram ks iz

/-- The configured known-overlaps list
OVERLAPPING_DATA_TO_REMOVE_IN_AGGREGATES. -/
def OVERLAPPING_DATA_TO_REMOVE_IN_AGGREGATES : List Overlap :=
  [{ region := "USSR"
     member := "Russia"
     entity_to_make_nan := .region
     years := [1991, 1992, 1993, 1994, 1995, 1996]
     var_name := "Gas - Proved reserves" }]

/-- The region names of REGIONS_TO_ADD. -/
def REGIONS_TO_ADD : List String :=
  ["North America", "South America", "Europe", "Africa", "Asia", "Oceania",
   "Low-income countries", "Upper-middle-income countries",
   "Lower-middle-income countries", "High-income countries"]

/-- HISTORIC_TO_CURRENT_REGION: each historical region with its member
(successor) countries. -/
def HISTORIC_TO_CURRENT_REGION : List (String × List String) :=
  [("Netherlands Antilles",
    ["Aruba", "Curacao", "Sint Maarten (Dutch part)"]),
   ("USSR",
    ["Lithuania", "Estonia", "Latvia", "Moldova", "Belarus", "Russia",
     "Ukraine", "Georgia", "Armenia", "Azerbaijan", "Turkmenistan",
     "Kazakhstan", "Kyrgyzstan", "Uzbekistan", "Tajikistan"])]

/-- Left-to-right, non-overlapping replacement of a pattern in a character
list, as Python str.replace; the fuel argument bounds the recursion by the
length of the scanned text. -/
def replace_sub (fuel : Nat) (pat rep s : List Char) : List Char :=
  match fuel with
  | 0 => s
  | fuel + 1 =>
    if pat ≠ [] ∧ pat.isPrefixOf s then rep ++ replace_sub fuel pat rep (s.drop pat.length)
    else
      match s with
      | [] => []
      | c :: cs => c :: replace_sub fuel pat rep cs

/-- Python s.replace(pat, rep). -/
def pyReplace (s pat rep : String) : String :=
  ⟨replace_sub s.data.length pat.data rep.data s.data⟩

/-- Whether a pattern occurs as a contiguous run inside a character list. -/
def infix_of (pat : List Char) : List Char → Bool
  | [] => pat.isEmpty
  | c :: cs => pat.isPrefixOf (c :: cs) || infix_of pat cs

/-- Python "(zero filled)" in column. -/
def has_marker (c : String) : Bool :=
  infix_of "(zero filled)".data c.data

/-- Python column.replace(" (zero filled)", ""): the matching original
variable of a zero-filled variable. -/
def base_name (c : String) : String :=
  pyReplace c " (zero filled)" ""

/-- amend_zero_filled_variables_for_region_aggregates: on rows whose
country is in REGIONS_TO_ADD, every column carrying the "(zero filled)"
marker receives the matching original column's value with NaN filled by 0;
all other rows and columns are untouched. -/
def amend_zero_filled_variables_for_region_aggregates (df : List Row) : List Row :=
  df.map (fun r =>
    if r.country ∈ REGIONS_TO_ADD then
      { r with values := r.values.map (fun kv =>
          if has_marker kv.1 then (kv.1, some ((getVal r (base_name kv.1)).getD 0)) else kv) }
    else r)

/-- Modelled from the spec: geo.list_countries_in_region of owid.datautils
is not under src/ (only its caller load_countries_in_regions is); per the
spec, membership resolution maps a region to its member list and an absent
region silently resolves to the empty set. The mapping argument stands for
the combined base geographic mapping, income groups and successor-state
rewriting that the library resolves from. -/
def list_countries_in_region (mapping : List (String × List String))
    (region : String) : List String :=
  (mapping.lookup region).getD []

/-- Modelled from the spec (geo.add_region_aggregates is not under src/):
the non-NaN values contributed by member countries to one (variable, year)
slice. -/
def contributions (df : List Row) (members : List String) (v : String) (y : Int) :
    List Int :=
  (df.filter (fun r => r.country ∈ members ∧ r.year = y)).filterMap (fun r => getVal r v)

/-- Modelled from the spec: the aggregate value of one (variable, year)
slice is the sum of the member contributions, and is absent (NaN), not
zero, when no member contributes. -/
def agg_value (df : List Row) (members : List String) (v : String) (y : Int) :
    Option Int :=
  if contributions df members v y = [] then none
  else some (contributions df members v y).sum

/-- Modelled from the spec: the years for which a region row is created are
exactly the years in which some member country contributes data in some
aggregated column. -/
def member_years (df : List Row) (members : List String) (cols : List String) :
    List Int :=
  sortInts (((df.filter (fun r =>
    r.country ∈ members ∧ cols.any (fun v => (getVal r v).isSome))).map (·.year)).dedup)

/-- Modelled from the spec: geo.add_region_aggregates with sum aggregation
appends one region row per year with member data, holding the per-column
sums of the member contributions. -/
def add_region_aggregates_modelled (df : List Row) (region : String)
    (members : List String) (cols : List String) : List Row :=
  df ++ (member_years df members cols).map (fun y =>
    { country := region, year := y,
      values := cols.map (fun v => (v, agg_value df members v y)) })

/-- One row refines another when country and year agree and every column
value is either unchanged or has been set to NaN; the remover only ever
moves values downward in this order. -/
def RowSub (a b : Row) : Prop :=
  a.country = b.country ∧ a.year = b.year ∧
    ∀ v, getVal a v = getVal b v ∨ getVal a v = none

/-- Pointwise refinement of dataframes (same rows in the same order, each
refined). -/
def Sub (dfa dfb : List Row) : Prop := List.Forall₂ RowSub dfa dfb

/-- Executable check that no two rows share a (country, year) pair. -/
def distinctCY : List Row → Bool
  | [] => true
  | r :: rest =>
      rest.all (fun s => ¬ (s.country = r.country ∧ s.year = r.year)) && distinctCY rest

/-- A dataframe with at most one row per (country, year) pair, as the
pipeline's final verify_integrity index asserts. -/
def uniqueCY (df : List Row) : Prop := distinctCY df = true

instance (df : List Row) : Decidable (uniqueCY df) := by
  unfold uniqueCY
  infer_instance

/-- A sample row holding one value of the overlap variable of the
configured known-overlaps list. -/
def gasRow (c : String) (y : Int) (x : Option Int) : Row :=
  { country := c, year := y, values := [("Gas - Proved reserves", x)] }

/-- A sample row holding one value of a generic variable x. -/
def xRow (c : String) (y : Int) (x : Option Int) : Row :=
  { country := c, year := y, values := [("x", x)] }

/-- Data realizing exactly the configured USSR/Russia overlap: both report
the overlap variable on 1991..1996. -/
def dfKnownOverlap : List Row :=
  [gasRow "USSR" 1991 (some 5), gasRow "USSR" 1992 (some 5), gasRow "USSR" 1993 (some 5),
   gasRow "USSR" 1994 (some 5), gasRow "USSR" 1995 (some 5), gasRow "USSR" 1996 (some 5),
   gasRow "Russia" 1991 (some 7), gasRow "Russia" 1992 (some 7), gasRow "Russia" 1993 (some 7),
   gasRow "Russia" 1994 (some 7), gasRow "Russia" 1995 (some 7), gasRow "Russia" 1996 (some 7)]

/-- Data realizing the configured overlap, with extra non-overlapping years
on both sides: USSR also reports 1990, Russia also reports 1997. -/
def dfUssrRussia : List Row :=
  gasRow "USSR" 1990 (some 3) :: dfKnownOverlap ++ [gasRow "Russia" 1997 (some 9)]

/-- The result of removing the configured overlap from dfUssrRussia: USSR
is nulled exactly on the overlapping years 1991..1996 and Russia is left
untouched everywhere. -/
def dfUssrRussiaAfter : List Row :=
  [gasRow "USSR" 1990 (some 3),
   gasRow "USSR" 1991 none, gasRow "USSR" 1992 none, gasRow "USSR" 1993 none,
   gasRow "USSR" 1994 none, gasRow "USSR" 1995 none, gasRow "USSR" 1996 none,
   gasRow "Russia" 1991 (some 7), gasRow "Russia" 1992 (some 7), gasRow "Russia" 1993 (some 7),
   gasRow "Russia" 1994 (some 7), gasRow "Russia" 1995 (some 7), gasRow "Russia" 1996 (some 7),
   gasRow "Russia" 1997 (some 9)]

/-- A generic overlap entry designating the region R for nulling. -/
def oRM : Overlap :=
  { region := "R", member := "M", entity_to_make_nan := .region,
    years := [1991], var_name := "x" }

/-- Region R and member M overlap on 1991; R also has a 1997 value. -/
def dfPartialOverlap : List Row :=
  [xRow "R" 1991 (some 5), xRow "R" 1997 (some 9), xRow "M" 1991 (some 7)]

/-- An overlap entry declaring year 2000 for the pair (R, M) on x. -/
def oRM2000 : Overlap :=
  { region := "R", member := "M", entity_to_make_nan := .region,
    years := [2000], var_name := "x" }

/-- The member M holds two rows for the year 2000, so year 2000 stays a
recomputed overlapping year even after removal (which nulls no value,
because the designated entity R has no row at 2000). -/
def dfDupMember : List Row :=
  [xRow "R" 1999 (some 1), xRow "M" 2000 (some 7), xRow "M" 2000 (some 8)]

/-- Member data for the spec's aggregation example: A and B both report x
in 2000, nobody reports 2001. -/
def dfTwoMembers : List Row :=
  [xRow "A" 2000 (some 10), xRow "B" 2000 (some 20)]

/-- A region row and a country row each holding an original variable and
its zero-filled companion. -/
def dfZeroFilled : List Row :=
  [{ country := "Europe", year := 2000,
     values := [("x", some 5), ("x (zero filled)", none),
                ("y", none), ("y (zero filled)", none)] },
   { country := "Spain", year := 2000,
     values := [("x", some 5), ("x (zero filled)", none)] }]

/-- The region R reports a zero for x in 2000 while the member M reports a
non-zero value: with ignore_zeros the pair must not count as overlapping. -/
def dfZeroValue : List Row :=
  [xRow "R" 2000 (some 0), xRow "M" 2000 (some 5)]

/-- A region-membership mapping knowing only Europe. -/
def mappingEurope : List (String × List String) :=
  [("Europe", ["France", "Germany"])]

/-- Data containing the USSR but not Russia, so the configured overlap
entry is skipped. -/
def dfUssrOnly : List Row :=
  [gasRow "USSR" 1991 (some 5)]

/-! ### Association-list lemmas -/

theorem lookupVal_map_keydep (f : String → Option Int → Option Int)
    (l : List (String × Option Int)) (v : String) :
    lookupVal v (l.map (fun kv => (kv.1, f kv.1 kv.2))) = (lookupVal v l).map (f v) := by
  induction l with
  | nil => rfl
  | cons kv rest ih =>
      by_cases h : kv.1 = v
      · simp [lookupVal, h]
      · simp [lookupVal, h, ih]

theorem setVal_as_keydep (k : String) (x : Option Int) (r : Row) :
    setVal k x r =
      { r with values := r.values.map (fun kv => (kv.1, if kv.1 = k then x else kv.2)) } := by
  unfold setVal
  congr 1
  apply List.map_congr_left
  intro kv _
  by_cases h : kv.1 = k <;> simp [h]

theorem getVal_setVal (k : String) (x : Option Int) (r : Row) (v : String) :
    getVal (setVal k x r) v =
      if v = k then ((lookupVal v r.values).map (fun _ => x)).getD none
      else getVal r v := by
  rw [setVal_as_keydep]
  unfold getVal
  simp only
  rw [lookupVal_map_keydep (fun k2 x2 => if k2 = k then x else x2)]
  by_cases h : v = k <;> simp [h]

theorem getVal_setVal_none_self (k : String) (r : Row) :
    getVal (setVal k none r) k = none := by
  rw [getVal_setVal]
  simp
  cases lookupVal k r.values <;> simp

theorem getVal_setVal_ne (k : String) (x : Option Int) (r : Row) (v : String)
    (h : v ≠ k) : getVal (setVal k x r) v = getVal r v := by
  rw [getVal_setVal]
  simp [h]

theorem setVal_country (k : String) (x : Option Int) (r : Row) :
    (setVal k x r).country = r.country := rfl

theorem setVal_year (k : String) (x : Option Int) (r : Row) :
    (setVal k x r).year = r.year := rfl

/-! ### Refinement basics -/

theorem rowSub_refl (r : Row) : RowSub r r :=
  ⟨Eq.refl _, Eq.refl _, fun v => Or.inl (Eq.refl (getVal r v))⟩

theorem rowSub_trans {a b c : Row} (h1 : RowSub a b) (h2 : RowSub b c) : RowSub a c := by
  obtain ⟨hc1, hy1, hv1⟩ := h1
  obtain ⟨hc2, hy2, hv2⟩ := h2
  refine ⟨hc1.trans hc2, hy1.trans hy2, fun v => ?_⟩
  rcases hv1 v with h | h
  · rw [h]
    exact hv2 v
  · exact Or.inr h

theorem rowSub_setVal_none (k : String) (r : Row) : RowSub (setVal k none r) r := by
  refine ⟨Eq.refl _, Eq.refl _, fun v => ?_⟩
  by_cases h : v = k
  · subst h
    exact Or.inr (getVal_setVal_none_self v r)
  · exact Or.inl (getVal_setVal_ne k none r v h)

theorem sub_refl (df : List Row) : Sub df df := by
  induction df with
  | nil => exact List.Forall₂.nil
  | cons r rest ih => exact List.Forall₂.cons (rowSub_refl r) ih

theorem sub_trans {a b c : List Row} (h1 : Sub a b) (h2 : Sub b c) : Sub a c := by
  induction h1 generalizing c with
  | nil => cases h2; exact List.Forall₂.nil
  | cons hr _ ih =>
      cases h2 with
      | cons hr2 ht2 => exact List.Forall₂.cons (rowSub_trans hr hr2) (ih ht2)

theorem sub_mem {dfa dfb : List Row} (h : Sub dfa dfb) {r : Row} (hr : r ∈ dfa) :
    ∃ s ∈ dfb, RowSub r s := by
  induction h with
  | nil => cases hr
  | cons hrel _ ih =>
      rcases List.mem_cons.mp hr with h1 | h1
      · subst h1
        exact ⟨_, List.mem_cons_self _ _, hrel⟩
      · obtain ⟨s, hs, hrs⟩ := ih h1
        exact ⟨s, List.mem_cons_of_mem _ hs, hrs⟩

theorem sub_map_of_pointwise {f : Row → Row} {df : List Row}
    (h : ∀ r ∈ df, RowSub (f r) r) : Sub (df.map f) df := by
  induction df with
  | nil => exact List.Forall₂.nil
  | cons r rest ih =>
      exact List.Forall₂.cons (h r (List.mem_cons_self _ _))
        (ih (fun s hs => h s (List.mem_cons_of_mem _ hs)))

theorem step_sub (df : List Row) (o : Overlap) (iz : Bool) :
    Sub (remove_overlap_step df o iz) df := by
  unfold remove_overlap_step
  by_cases h : present df o
  · rw [if_pos h]
    apply sub_map_of_pointwise
    intro r _
    by_cases hs : selectP df o iz r
    · rw [if_pos hs]
      exact rowSub_setVal_none o.var_name r
    · rw [if_neg hs]
      exact rowSub_refl r
  · rw [if_neg h]
    exact sub_refl df

theorem removeAll_sub (os : List Overlap) (df : List Row) (iz : Bool) :
    Sub (removeAll os df iz) df := by
  induction os generalizing df with
  | nil => exact sub_refl df
  | cons o rest ih =>
      exact sub_trans (ih (remove_overlap_step df o iz)) (step_sub df o iz)

/-! ### Invariance under refinement -/

theorem zf_isSome_ne_none {x : Option Int} {iz : Bool} (h : (zf x iz).isSome) :
    x ≠ none := by
  unfold zf at h
  by_cases hc : iz = true ∧ x = some 0
  · rw [if_pos hc] at h
    cases h
  · rw [if_neg hc] at h
    intro hx
    rw [hx] at h
    cases h

theorem zf_congr {x y : Option Int} (iz : Bool) (h : x = y) : zf x iz = zf y iz := by
  rw [h]

theorem desig_mem (o : Overlap) : desig o = o.region ∨ desig o = o.member := by
  unfold desig
  cases o.entity_to_make_nan
  · exact Or.inl (Eq.refl _)
  · exact Or.inr (Eq.refl _)

theorem keyOf_congr {a b : Row} (iz : Bool) (h : a.year = b.year) :
    keyOf iz a = keyOf iz b := by
  unfold keyOf
  rw [h]

theorem filtP_of_rowSub {a b : Row} {o : Overlap} {iz : Bool} (h : RowSub a b)
    (hf : filtP o iz a = true) : filtP o iz b = true := by
  obtain ⟨hc, _, hv⟩ := h
  simp only [filtP, decide_eq_true_eq] at hf ⊢
  obtain ⟨hcm, hsome⟩ := hf
  have hne : getVal a o.var_name ≠ none := zf_isSome_ne_none hsome
  have heq : getVal a o.var_name = getVal b o.var_name := by
    rcases hv o.var_name with h1 | h1
    · exact h1
    · exact absurd h1 hne
  constructor
  · rw [← hc]
    exact hcm
  · rw [← heq]
    exact hsome

theorem sub_any_country {dfa dfb : List Row} (h : Sub dfa dfb) (c : String) :
    (dfa.any (fun r => r.country = c)) = (dfb.any (fun r => r.country = c)) := by
  induction h with
  | nil => rfl
  | cons hr _ ih =>
      simp only [List.any_cons, ih, hr.1]

theorem present_sub {dfa dfb : List Row} (h : Sub dfa dfb) (o : Overlap) :
    present dfa o = present dfb o := by
  simp only [present, sub_any_country h]

theorem countP_le_of_forall₂ {α β : Type} {R : α → β → Prop} {p : α → Bool}
    {q : β → Bool} {la : List α} {lb : List β} (h : List.Forall₂ R la lb)
    (himp : ∀ a b, R a b → p a = true → q b = true) :
    la.countP p ≤ lb.countP q := by
  induction h with
  | nil => exact Nat.le_refl 0
  | cons hr _ ih =>
      rename_i a b la2 lb2 _
      simp only [List.countP_cons]
      have hind : (if p a then 1 else 0) ≤ (if q b then 1 else 0) := by
        by_cases hp : p a = true
        · rw [if_pos hp, if_pos (himp a b hr hp)]
        · rw [if_neg hp]
          exact Nat.zero_le _
      exact Nat.add_le_add ih hind

theorem countKey_sub_le {dfa dfb : List Row} (h : Sub dfa dfb) (o : Overlap)
    (iz : Bool) (k : Option Int) :
    countKey dfa o iz k ≤ countKey dfb o iz k := by
  unfold countKey
  rw [List.countP_filter, List.countP_filter]
  apply countP_le_of_forall₂ h
  intro a b hr hp
  simp only [Bool.and_eq_true, decide_eq_true_eq] at hp ⊢
  exact ⟨by rw [← keyOf_congr iz hr.2.1]; exact hp.1, filtP_of_rowSub hr hp.2⟩

theorem countP_cy_sub_eq {dfa dfb : List Row} (h : Sub dfa dfb) (c : String) (y : Int) :
    dfa.countP (fun r => r.country = c ∧ r.year = y)
      = dfb.countP (fun r => r.country = c ∧ r.year = y) := by
  induction h with
  | nil => rfl
  | cons hr _ ih =>
      simp only [List.countP_cons, ih, hr.1, hr.2.1]

/-! ### No duplicated candidate row of the designated entity survives removal -/

theorem select_false_of_sub_step {df dff : List Row} {o : Overlap} {iz : Bool}
    (hsub : Sub dff (remove_overlap_step df o iz))
    (hpres : present df o = true) :
    ∀ r ∈ dff, ¬ (selectP dff o iz r = true) := by
  intro r hr hsel
  simp only [selectP, decide_eq_true_eq] at hsel
  obtain ⟨hfil, hdes, hcnt⟩ := hsel
  obtain ⟨rm, hrm, hrsub⟩ := sub_mem hsub hr
  rw [remove_overlap_step, if_pos hpres] at hrm
  obtain ⟨rt, hrt, hfrt⟩ := List.mem_map.mp hrm
  have hfilP : filtP o iz r = true := hfil
  have hsome : (zf (getVal r o.var_name) iz).isSome := by
    simp only [filtP, decide_eq_true_eq] at hfilP
    exact hfilP.2
  have hvne : getVal r o.var_name ≠ none := zf_isSome_ne_none hsome
  have hval : getVal r o.var_name = getVal rm o.var_name := by
    rcases hrsub.2.2 o.var_name with h1 | h1
    · exact h1
    · exact absurd h1 hvne
  by_cases hselt : selectP df o iz rt = true
  · rw [if_pos hselt] at hfrt
    rw [← hfrt, getVal_setVal_none_self] at hval
    exact hvne hval
  · rw [if_neg hselt] at hfrt
    subst hfrt
    apply hselt
    simp only [selectP, decide_eq_true_eq]
    have hcy : r.country = rt.country := hrsub.1
    have hyy : r.year = rt.year := hrsub.2.1
    have hvrt : getVal r o.var_name = getVal rt o.var_name := hval
    refine ⟨?_, ?_, ?_⟩
    · simp only [filtP, decide_eq_true_eq] at hfilP ⊢
      refine ⟨?_, ?_⟩
      · rw [← hcy]
        exact hfilP.1
      · rw [← hvrt]
        exact hfilP.2
    · rw [← hcy]
      exact hdes
    · have hkk : keyOf iz rt = keyOf iz r := keyOf_congr iz hyy.symm
      rw [hkk]
      calc 2 ≤ countKey dff o iz (keyOf iz r) := hcnt
        _ ≤ countKey (remove_overlap_step df o iz) o iz (keyOf iz r) :=
            countKey_sub_le hsub o iz _
        _ ≤ countKey df o iz (keyOf iz r) :=
            countKey_sub_le (step_sub df o iz) o iz _

theorem removeAll_cons (o : Overlap) (rest : List Overlap) (df : List Row) (iz : Bool) :
    removeAll (o :: rest) df iz = removeAll rest (remove_overlap_step df o iz) iz := by
  rfl

theorem removeAll_select_false (os : List Overlap) (df : List Row) (iz : Bool)
    (o : Overlap) (ho : o ∈ os)
    (hpres : present (removeAll os df iz) o = true) :
    ∀ r ∈ removeAll os df iz, ¬ (selectP (removeAll os df iz) o iz r = true) := by
  induction os generalizing df with
  | nil => cases ho
  | cons o0 rest ih =>
      rw [removeAll_cons] at hpres ⊢
      rcases List.mem_cons.mp ho with h | h
      · subst h
        apply select_false_of_sub_step (removeAll_sub rest (remove_overlap_step df o iz) iz)
        rw [← present_sub (step_sub df o iz) o]
        rw [← present_sub (removeAll_sub rest (remove_overlap_step df o iz) iz) o]
        exact hpres
      · exact ih (remove_overlap_step df o0 iz) h hpres

theorem step_eq_self {df : List Row} {o : Overlap} {iz : Bool}
    (h : present df o = true → ∀ r ∈ df, ¬ (selectP df o iz r = true)) :
    remove_overlap_step df o iz = df := by
  unfold remove_overlap_step
  by_cases hp : present df o = true
  · rw [if_pos hp]
    rw [List.map_congr_left (g := id) (fun r hr => by rw [if_neg (h hp r hr)]; rfl)]
    exact List.map_id df
  · rw [if_neg hp]

theorem removeAll_fix (os : List Overlap) (dff : List Row) (iz : Bool)
    (h : ∀ o ∈ os, remove_overlap_step dff o iz = dff) :
    removeAll os dff iz = dff := by
  induction os with
  | nil => rfl
  | cons o rest ih =>
      rw [removeAll_cons, h o (List.mem_cons_self _ _)]
      exact ih (fun p hp => h p (List.mem_cons_of_mem _ hp))

theorem removeAll_idem (os : List Overlap) (df : List Row) (iz : Bool) :
    removeAll os (removeAll os df iz) iz = removeAll os df iz := by
  apply removeAll_fix
  intro o ho
  apply step_eq_self
  intro hp
  exact removeAll_select_false os df iz o ho hp

/-! ### Counting lemmas -/

theorem one_le_countP_of_mem {α : Type} {p : α → Bool} {l : List α} {a : α}
    (ha : a ∈ l) (hp : p a = true) : 1 ≤ l.countP p :=
  List.countP_pos_iff.mpr ⟨a, ha, hp⟩

theorem countP_or_le {α : Type} (p q : α → Bool) (l : List α) :
    l.countP (fun x => p x || q x) ≤ l.countP p + l.countP q := by
  induction l with
  | nil => exact Nat.le_refl 0
  | cons a rest ih =>
      simp only [List.countP_cons]
      by_cases hp : p a = true
      · by_cases hq : q a = true <;> simp [hp, hq] <;> omega
      · by_cases hq : q a = true <;> simp [hp, hq] <;> omega

theorem two_le_countP_of_disjoint {α : Type} {p q : α → Bool} {l : List α}
    {a b : α} (ha : a ∈ l) (hp : p a = true) (hb : b ∈ l) (hq : q b = true)
    (hdisj : ∀ x, ¬ (p x = true ∧ q x = true)) :
    2 ≤ l.countP (fun x => p x || q x) := by
  induction l with
  | nil => cases ha
  | cons c rest ih =>
      simp only [List.countP_cons]
      rcases List.mem_cons.mp ha with hac | ha2
      · have hbr : b ∈ rest := by
          rcases List.mem_cons.mp hb with hbc | hb2
          · exfalso
            apply hdisj c
            rw [hac] at hp
            rw [hbc] at hq
            exact ⟨hp, hq⟩
          · exact hb2
        have h1 : 1 ≤ rest.countP (fun x => p x || q x) :=
          one_le_countP_of_mem hbr (by rw [hq, Bool.or_true])
        subst hac
        rw [hp, Bool.true_or, if_pos (Eq.refl true)]
        omega
      · rcases List.mem_cons.mp hb with hbc | hb2
        · have h1 : 1 ≤ rest.countP (fun x => p x || q x) :=
            one_le_countP_of_mem ha2 (by rw [hp, Bool.true_or])
          subst hbc
          rw [hq, Bool.or_true, if_pos (Eq.refl true)]
          omega
        · have := ih ha2 hb2
          omega

theorem exists_nonzero_of_sum_ne_zero {l : List Int} (h : l.sum ≠ 0) :
    ∃ a ∈ l, a ≠ 0 := by
  induction l with
  | nil => exact absurd (Eq.refl (0 : Int)) h
  | cons a rest ih =>
      by_cases ha : a = 0
      · rw [List.sum_cons, ha, zero_add] at h
        obtain ⟨b, hb, hbne⟩ := ih h
        exact ⟨b, List.mem_cons_of_mem _ hb, hbne⟩
      · exact ⟨a, List.mem_cons_self _ _, ha⟩

theorem year_of_keyOf {iz : Bool} {r : Row} {k : Option Int} (h : keyOf iz r = k) :
    r.year = k.getD 0 := by
  unfold keyOf at h
  by_cases hc : iz = true ∧ r.year = 0
  · rw [if_pos hc] at h
    rw [← h, hc.2]
    rfl
  · rw [if_neg hc] at h
    rw [← h]
    rfl

theorem uniq_countP {df : List Row} (h : uniqueCY df) (c : String) (y : Int) :
    df.countP (fun r => r.country = c ∧ r.year = y) ≤ 1 := by
  induction df with
  | nil => exact Nat.zero_le 1
  | cons r rest ih =>
      unfold uniqueCY distinctCY at h
      rw [Bool.and_eq_true] at h
      obtain ⟨hall, hrest⟩ := h
      rw [List.countP_cons]
      by_cases hm : r.country = c ∧ r.year = y
      · have hzero : rest.countP (fun s => s.country = c ∧ s.year = y) = 0 := by
          rw [List.countP_eq_zero]
          intro s hs hsp
          simp only [decide_eq_true_eq] at hsp
          have := List.all_eq_true.mp hall s hs
          simp only [decide_eq_true_eq] at this
          exact this ⟨hsp.1.trans hm.1.symm, hsp.2.trans hm.2.symm⟩
        rw [hzero]
        split <;> omega
      · rw [if_neg (by simpa using hm)]
        exact Nat.add_le_add_right (ih hrest) 0 |>.trans (by omega)

theorem cnt_le_one_of_uniq {df : List Row}
    (hcnt : ∀ c y, df.countP (fun r => r.country = c ∧ r.year = y) ≤ 1) (c : String)
    (iz : Bool) (k : Option Int) :
    df.countP (fun r => r.country = c ∧ keyOf iz r = k) ≤ 1 := by
  calc df.countP (fun r => r.country = c ∧ keyOf iz r = k)
      ≤ df.countP (fun r => r.country = c ∧ r.year = k.getD 0) := by
        apply List.countP_mono_left
        intro r _ hp
        simp only [decide_eq_true_eq] at hp ⊢
        exact ⟨hp.1, year_of_keyOf hp.2⟩
    _ ≤ 1 := hcnt c (k.getD 0)

theorem countKey_eq_countP (df : List Row) (o : Overlap) (iz : Bool) (k : Option Int) :
    countKey df o iz k = df.countP (fun r => decide (keyOf iz r = k) && filtP o iz r) := by
  unfold countKey
  rw [List.countP_filter]

theorem countP_bound_sub {dfa dfb : List Row} (h : Sub dfa dfb)
    (hu : ∀ c y, dfb.countP (fun r => r.country = c ∧ r.year = y) ≤ 1) :
    ∀ c y, dfa.countP (fun r => r.country = c ∧ r.year = y) ≤ 1 := by
  intro c y
  rw [countP_cy_sub_eq h c y]
  exact hu c y

theorem countKey_final_le_one (os : List Overlap) (df : List Row) (iz : Bool)
    (o : Overlap) (ho : o ∈ os) (huniq : uniqueCY df) (k : Option Int) :
    countKey (removeAll os df iz) o iz k ≤ 1 := by
  have hcntb : ∀ c y,
      (removeAll os df iz).countP (fun r => r.country = c ∧ r.year = y) ≤ 1 :=
    countP_bound_sub (removeAll_sub os df iz) (fun c y => uniq_countP huniq c y)
  by_contra hgt
  have h2 : 2 ≤ countKey (removeAll os df iz) o iz k := by omega
  by_cases hrm : o.region = o.member
  · have hle : countKey (removeAll os df iz) o iz k ≤
        (removeAll os df iz).countP (fun r => r.country = o.region ∧ keyOf iz r = k) := by
      rw [countKey_eq_countP]
      apply List.countP_mono_left
      intro r _ hp
      simp only [Bool.and_eq_true, decide_eq_true_eq, filtP] at hp ⊢
      rcases hp.2.1 with hc | hc
      · exact ⟨hc, hp.1⟩
      · exact ⟨hc.trans hrm.symm, hp.1⟩
    have := cnt_le_one_of_uniq hcntb o.region iz k
    omega
  · have hsplit : countKey (removeAll os df iz) o iz k ≤
        (removeAll os df iz).countP
          (fun r => (decide (keyOf iz r = k) && filtP o iz r) && r.country = o.region)
        + (removeAll os df iz).countP
          (fun r => (decide (keyOf iz r = k) && filtP o iz r) && r.country = o.member) := by
      rw [countKey_eq_countP]
      refine le_trans (List.countP_mono_left ?_) (countP_or_le _ _ _)
      intro r _ hp
      have hp2 := hp
      rw [Bool.and_eq_true] at hp2
      have hfp : filtP o iz r = true := hp2.2
      simp only [filtP, decide_eq_true_eq] at hfp
      rcases hfp.1 with hc | hc
      · rw [Bool.or_eq_true]
        exact Or.inl (by rw [Bool.and_eq_true]; exact ⟨hp, by simpa using hc⟩)
      · rw [Bool.or_eq_true]
        exact Or.inr (by rw [Bool.and_eq_true]; exact ⟨hp, by simpa using hc⟩)
    have hA1 : (removeAll os df iz).countP
        (fun r => (decide (keyOf iz r = k) && filtP o iz r) && r.country = o.region) ≤ 1 := by
      refine le_trans (List.countP_mono_left ?_) (cnt_le_one_of_uniq hcntb o.region iz k)
      intro r _ hp
      simp only [Bool.and_eq_true, decide_eq_true_eq] at hp ⊢
      exact ⟨hp.2, hp.1.1⟩
    have hB1 : (removeAll os df iz).countP
        (fun r => (decide (keyOf iz r = k) && filtP o iz r) && r.country = o.member) ≤ 1 := by
      refine le_trans (List.countP_mono_left ?_) (cnt_le_one_of_uniq hcntb o.member iz k)
      intro r _ hp
      simp only [Bool.and_eq_true, decide_eq_true_eq] at hp ⊢
      exact ⟨hp.2, hp.1.1⟩
    obtain ⟨rA, hrAmem, hrA⟩ := List.countP_pos_iff.mp (show 0 <
        (removeAll os df iz).countP
          (fun r => (decide (keyOf iz r = k) && filtP o iz r) && r.country = o.region) by omega)
    obtain ⟨rB, hrBmem, hrB⟩ := List.countP_pos_iff.mp (show 0 <
        (removeAll os df iz).countP
          (fun r => (decide (keyOf iz r = k) && filtP o iz r) && r.country = o.member) by omega)
    simp only [Bool.and_eq_true, decide_eq_true_eq] at hrA hrB
    have hpres : present (removeAll os df iz) o = true := by
      have h1 : ((removeAll os df iz).any (fun r => r.country = o.region)) = true :=
        List.any_eq_true.mpr ⟨rA, hrAmem, by simpa using hrA.2⟩
      have h2 : ((removeAll os df iz).any (fun r => r.country = o.member)) = true :=
        List.any_eq_true.mpr ⟨rB, hrBmem, by simpa using hrB.2⟩
      simp only [present]
      simp [h1, h2]
    have hnosel := removeAll_select_false os df iz o ho hpres
    rcases desig_mem o with hd | hd
    · apply hnosel rA hrAmem
      simp only [selectP, decide_eq_true_eq]
      refine ⟨hrA.1.2, hrA.2.trans hd.symm, ?_⟩
      rw [hrA.1.1]
      exact h2
    · apply hnosel rB hrBmem
      simp only [selectP, decide_eq_true_eq]
      refine ⟨hrB.1.2, hrB.2.trans hd.symm, ?_⟩
      rw [hrB.1.1]
      exact h2

theorem overlapKeysR_final_empty (os : List Overlap) (df : List Row) (iz : Bool)
    (o : Overlap) (ho : o ∈ os) (huniq : uniqueCY df) :
    overlapKeysR (removeAll os df iz) o iz = [] := by
  unfold overlapKeysR
  have hnil : ((((removeAll os df iz).filter (filtP o iz)).map (keyOf iz)).dedup).filter
      (fun k => 2 ≤ countKey (removeAll os df iz) o iz k) = [] := by
    rw [List.filter_eq_nil_iff]
    intro k _
    have := countKey_final_le_one os df iz o ho huniq k
    simp only [decide_eq_true_eq]
    omega
  rw [hnil]
  rfl

/-! ### Claim C7 -/

/-- C7 counterexample: the claim "applying the remover to its own output
yields an equal dataframe — on the second pass the recomputed set of
overlapping years is empty" is false as stated: on dfDupMember with the
entry oRM2000 the output is a fixed point, but the recomputed overlapping
years of the second pass still contain 2000, because the non-designated
member M holds two rows for that year. -/
theorem c7_counterexample :
    ¬ (remove_overlapping_data_for_regions_and_members
          (remove_overlapping_data_for_regions_and_members dfDupMember (some [oRM2000]) true)
          (some [oRM2000]) true
        = remove_overlapping_data_for_regions_and_members dfDupMember (some [oRM2000]) true
      ∧ overlapKeysR
          (remove_overlapping_data_for_regions_and_members dfDupMember (some [oRM2000]) true)
          oRM2000 true = []) := by
  decide

/-- C7 (amended): applying the remover to its own output always yields an
equal dataframe; when moreover the input has at most one row per
(country, year), the recomputed set of overlapping years of every
known-overlap entry is empty on the second pass, so no further value is
nulled. -/
theorem c7_remover_idempotent (df : List Row) (os : List Overlap) (iz : Bool)
    (huniq : uniqueCY df) :
    remove_overlapping_data_for_regions_and_members
        (remove_overlapping_data_for_regions_and_members df (some os) iz) (some os) iz
      = remove_overlapping_data_for_regions_and_members df (some os) iz
    ∧ ∀ o ∈ os, overlapKeysR
        (remove_overlapping_data_for_regions_and_members df (some os) iz) o iz = [] := by
  constructor
  · show removeAll os (removeAll os df iz) iz = removeAll os df iz
    exact removeAll_idem os df iz
  · intro o ho
    show overlapKeysR (removeAll os df iz) o iz = []
    exact overlapKeysR_final_empty os df iz o ho huniq

/-- C7 witness: the amended statement evaluated on data realizing the
configured USSR/Russia overlap. -/
theorem c7_remover_idempotent_witness :
    uniqueCY dfKnownOverlap
    ∧ (remove_overlapping_data_for_regions_and_members
          (remove_overlapping_data_for_regions_and_members dfKnownOverlap
            (some OVERLAPPING_DATA_TO_REMOVE_IN_AGGREGATES) true)
          (some OVERLAPPING_DATA_TO_REMOVE_IN_AGGREGATES) true
        = remove_overlapping_data_for_regions_and_members dfKnownOverlap
            (some OVERLAPPING_DATA_TO_REMOVE_IN_AGGREGATES) true
      ∧ ∀ o ∈ OVERLAPPING_DATA_TO_REMOVE_IN_AGGREGATES, overlapKeysR
          (remove_overlapping_data_for_regions_and_members dfKnownOverlap
            (some OVERLAPPING_DATA_TO_REMOVE_IN_AGGREGATES) true) o true = []) :=
  ⟨by decide,
   c7_remover_idempotent dfKnownOverlap OVERLAPPING_DATA_TO_REMOVE_IN_AGGREGATES true
     (by decide)⟩

/-! ### Claim C2 -/

theorem zf_some_ne_zero {a : Int} (iz : Bool) (ha : a ≠ 0) :
    (zf (some a) iz).isSome = true := by
  unfold zf
  rw [if_neg (fun hc => ha (by injection hc.2))]
  rfl

theorem mem_contributions {df : List Row} {c v : String} {y : Int} {a : Int}
    (h : a ∈ contributions df [c] v y) :
    ∃ r ∈ df, r.country = c ∧ r.year = y ∧ getVal r v = some a := by
  unfold contributions at h
  obtain ⟨r, hr, hv⟩ := List.mem_filterMap.mp h
  obtain ⟨hmem, hp⟩ := List.mem_filter.mp hr
  simp only [decide_eq_true_eq, List.mem_singleton] at hp
  exact ⟨r, hmem, hp.1, hp.2, hv⟩

/-- C2: after remove_overlapping_data_for_regions_and_members, for every
known-overlap entry (with distinct region and member), in every year at
most one of the historical region and the overlapping member contributes a
non-zero amount to the aggregated sum of the overlap variable: the two are
never both summed. -/
theorem c2_aggregate_never_sums_both (df : List Row) (os : List Overlap)
    (iz : Bool) (o : Overlap) (ho : o ∈ os) (hrm : o.region ≠ o.member) (y : Int) :
    (contributions (remove_overlapping_data_for_regions_and_members df (some os) iz)
        [o.region] o.var_name y).sum = 0
    ∨ (contributions (remove_overlapping_data_for_regions_and_members df (some os) iz)
        [o.member] o.var_name y).sum = 0 := by
  by_contra hboth
  push_neg at hboth
  obtain ⟨hA, hB⟩ := hboth
  have hfin : remove_overlapping_data_for_regions_and_members df (some os) iz
      = removeAll os df iz := rfl
  rw [hfin] at hA hB
  obtain ⟨a, haMem, haNe⟩ := exists_nonzero_of_sum_ne_zero hA
  obtain ⟨rA, hrAf, hcA, hyA, hvA⟩ := mem_contributions haMem
  obtain ⟨b, hbMem, hbNe⟩ := exists_nonzero_of_sum_ne_zero hB
  obtain ⟨rB, hrBf, hcB, hyB, hvB⟩ := mem_contributions hbMem
  have hfA : filtP o iz rA = true := by
    simp only [filtP, decide_eq_true_eq]
    exact ⟨Or.inl hcA, by rw [hvA]; exact zf_some_ne_zero iz haNe⟩
  have hfB : filtP o iz rB = true := by
    simp only [filtP, decide_eq_true_eq]
    exact ⟨Or.inr hcB, by rw [hvB]; exact zf_some_ne_zero iz hbNe⟩
  have hkAB : keyOf iz rB = keyOf iz rA := keyOf_congr iz (hyB.trans hyA.symm)
  have hcnt : 2 ≤ countKey (removeAll os df iz) o iz (keyOf iz rA) := by
    rw [countKey_eq_countP]
    refine le_trans (two_le_countP_of_disjoint (a := rA) (b := rB)
        (p := fun r => (decide (keyOf iz r = keyOf iz rA) && filtP o iz r)
              && r.country = o.region)
        (q := fun r => (decide (keyOf iz r = keyOf iz rA) && filtP o iz r)
              && r.country = o.member)
        hrAf ?_ hrBf ?_ ?_) (List.countP_mono_left ?_)
    · simp [hfA, hcA]
    · simp [hkAB, hfB, hcB]
    · intro x hx
      simp only [Bool.and_eq_true, decide_eq_true_eq] at hx
      exact hrm (hx.1.2.symm.trans hx.2.2)
    · intro r _ hp
      simp only [Bool.or_eq_true, Bool.and_eq_true] at hp
      rw [Bool.and_eq_true]
      rcases hp with h1 | h1
      · exact h1.1
      · exact h1.1
  have hpres : present (removeAll os df iz) o = true := by
    have h1 : ((removeAll os df iz).any (fun r => r.country = o.region)) = true :=
      List.any_eq_true.mpr ⟨rA, hrAf, by simpa using hcA⟩
    have h2 : ((removeAll os df iz).any (fun r => r.country = o.member)) = true :=
      List.any_eq_true.mpr ⟨rB, hrBf, by simpa using hcB⟩
    simp only [present]
    simp [h1, h2]
  have hnosel := removeAll_select_false os df iz o ho hpres
  rcases desig_mem o with hd | hd
  · apply hnosel rA hrAf
    simp only [selectP, decide_eq_true_eq]
    exact ⟨hfA, hcA.trans hd.symm, hcnt⟩
  · apply hnosel rB hrBf
    simp only [selectP, decide_eq_true_eq]
    refine ⟨hfB, hcB.trans hd.symm, ?_⟩
    rw [hkAB]
    exact hcnt

/-- C2 witness: on data realizing the configured USSR/Russia overlap, after
removal the USSR contributes nothing to the 1991 aggregate slice. -/
theorem c2_aggregate_never_sums_both_witness :
    ((OVERLAPPING_DATA_TO_REMOVE_IN_AGGREGATES.head (by decide))
        ∈ OVERLAPPING_DATA_TO_REMOVE_IN_AGGREGATES
      ∧ (OVERLAPPING_DATA_TO_REMOVE_IN_AGGREGATES.head (by decide)).region
        ≠ (OVERLAPPING_DATA_TO_REMOVE_IN_AGGREGATES.head (by decide)).member)
    ∧ ((contributions (remove_overlapping_data_for_regions_and_members dfKnownOverlap
          (some OVERLAPPING_DATA_TO_REMOVE_IN_AGGREGATES) true)
          [(OVERLAPPING_DATA_TO_REMOVE_IN_AGGREGATES.head (by decide)).region]
          (OVERLAPPING_DATA_TO_REMOVE_IN_AGGREGATES.head (by decide)).var_name 1991).sum = 0
      ∨ (contributions (remove_overlapping_data_for_regions_and_members dfKnownOverlap
          (some OVERLAPPING_DATA_TO_REMOVE_IN_AGGREGATES) true)
          [(OVERLAPPING_DATA_TO_REMOVE_IN_AGGREGATES.head (by decide)).member]
          (OVERLAPPING_DATA_TO_REMOVE_IN_AGGREGATES.head (by decide)).var_name 1991).sum = 0) :=
  ⟨⟨by decide, by decide⟩,
   c2_aggregate_never_sums_both dfKnownOverlap OVERLAPPING_DATA_TO_REMOVE_IN_AGGREGATES
     true (OVERLAPPING_DATA_TO_REMOVE_IN_AGGREGATES.head (by decide)) (by decide) (by decide)
     1991⟩

/-! ### Claim C10 -/

/-- C10: a known-overlap entry whose region or member does not occur in the
country column is skipped entirely and silently: no value changes and no
warning (not even the stale-documentation one) is emitted. -/
theorem c10_absent_entry_skipped_silently (df : List Row) (o : Overlap) (iz : Bool)
    (h : o.region ∉ df.map Row.country ∨ o.member ∉ df.map Row.country) :
    remove_overlap_step df o iz = df
    ∧ remove_overlap_step_warn df o iz = false
    ∧ remove_overlapping_data_for_regions_and_members df (some [o]) iz = df := by
  have hpres : ¬ (present df o = true) := by
    intro hc
    simp only [present, decide_eq_true_eq, List.any_eq_true, decide_eq_true_eq] at hc
    rcases h with h1 | h1
    · exact h1 (List.mem_map.mpr (by
        obtain ⟨r, hr, hrc⟩ := hc.1
        exact ⟨r, hr, hrc⟩))
    · exact h1 (List.mem_map.mpr (by
        obtain ⟨r, hr, hrc⟩ := hc.2
        exact ⟨r, hr, hrc⟩))
  have hstep : remove_overlap_step df o iz = df := by
    unfold remove_overlap_step
    rw [if_neg hpres]
  refine ⟨hstep, ?_, ?_⟩
  · unfold remove_overlap_step_warn
    rw [if_neg hpres]
  · show removeAll [o] df iz = df
    rw [removeAll_cons, hstep]
    rfl

/-- C10 witness: the configured entry is skipped on data containing the
USSR but not Russia. -/
theorem c10_absent_entry_skipped_silently_witness :
    ((OVERLAPPING_DATA_TO_REMOVE_IN_AGGREGATES.head (by decide)).region
        ∉ dfUssrOnly.map Row.country
      ∨ (OVERLAPPING_DATA_TO_REMOVE_IN_AGGREGATES.head (by decide)).member
        ∉ dfUssrOnly.map Row.country)
    ∧ (remove_overlap_step dfUssrOnly
          (OVERLAPPING_DATA_TO_REMOVE_IN_AGGREGATES.head (by decide)) true = dfUssrOnly
      ∧ remove_overlap_step_warn dfUssrOnly
          (OVERLAPPING_DATA_TO_REMOVE_IN_AGGREGATES.head (by decide)) true = false
      ∧ remove_overlapping_data_for_regions_and_members dfUssrOnly
          (some [OVERLAPPING_DATA_TO_REMOVE_IN_AGGREGATES.head (by decide)]) true
        = dfUssrOnly) :=
  ⟨by decide,
   c10_absent_entry_skipped_silently dfUssrOnly
     (OVERLAPPING_DATA_TO_REMOVE_IN_AGGREGATES.head (by decide)) true (by decide)⟩

/-! ### Claim C4 -/

/-- C4 counterexample: the claim says Russia's values become null for the
years 1991..1996; on data realizing exactly the configured overlap,
Russia's 1991 value is untouched (the entry designates the region, USSR,
for nulling). -/
theorem c4_counterexample :
    ¬ (valueAt (remove_overlapping_data_for_regions_and_members dfUssrRussia
        (some OVERLAPPING_DATA_TO_REMOVE_IN_AGGREGATES) true)
        "Russia" 1991 "Gas - Proved reserves" = none) := by
  decide

/-- C4 (amended): with the configured entry (whose entity_to_make_nan is
"region"), the remover nulls the USSR's overlap-variable values exactly on
the detected overlapping years 1991..1996, leaves its 1990 value and every
Russia value unchanged, and emits no stale-documentation warning since the
detected years match the declared ones. -/
theorem c4_ussr_nulled_exactly_on_overlap :
    remove_overlapping_data_for_regions_and_members dfUssrRussia
        (some OVERLAPPING_DATA_TO_REMOVE_IN_AGGREGATES) true = dfUssrRussiaAfter
    ∧ remove_overlap_step_warn dfUssrRussia
        (OVERLAPPING_DATA_TO_REMOVE_IN_AGGREGATES.head (by decide)) true = false := by
  decide

/-! ### Claim C3 -/

/-- C3 counterexample: the claim says the remover nulls the designated
entity's variable across all its rows; on dfPartialOverlap with entry oRM
the designated entity R keeps its 1997 value, because only rows of the
detected overlapping years are nulled. -/
theorem c3_counterexample :
    ¬ (∀ r ∈ remove_overlapping_data_for_regions_and_members dfPartialOverlap
          (some [oRM]) true,
        r.country = desig oRM → getVal r oRM.var_name = none) := by
  decide

/-- C3 (amended): for a present entry, the remover nulls the designated
entity's value of the overlap variable exactly on the rows whose year key
is duplicated among the candidate rows: rows of other entities, rows
outside the duplicated year keys, and all other variables are unchanged. -/
theorem c3_nulls_only_detected_rows (df : List Row) (o : Overlap) (iz : Bool)
    (hpres : present df o = true) (i : Nat) (hi : i < df.length) :
    (remove_overlap_step df o iz).length = df.length
    ∧ ∀ (hj : i < (remove_overlap_step df o iz).length),
        ((df.get ⟨i, hi⟩).country ≠ desig o →
          (remove_overlap_step df o iz).get ⟨i, hj⟩ = df.get ⟨i, hi⟩)
        ∧ (¬ (2 ≤ countKey df o iz (keyOf iz (df.get ⟨i, hi⟩))) →
          (remove_overlap_step df o iz).get ⟨i, hj⟩ = df.get ⟨i, hi⟩)
        ∧ (∀ v, v ≠ o.var_name →
            getVal ((remove_overlap_step df o iz).get ⟨i, hj⟩) v
              = getVal (df.get ⟨i, hi⟩) v)
        ∧ ((df.get ⟨i, hi⟩).country = desig o →
            2 ≤ countKey df o iz (keyOf iz (df.get ⟨i, hi⟩)) →
            (zf (getVal (df.get ⟨i, hi⟩) o.var_name) iz).isSome →
            getVal ((remove_overlap_step df o iz).get ⟨i, hj⟩) o.var_name = none) := by
  have hstep : remove_overlap_step df o iz
      = df.map (fun r => if selectP df o iz r then setVal o.var_name none r else r) := by
    unfold remove_overlap_step
    rw [if_pos hpres]
  constructor
  · rw [hstep, List.length_map]
  · intro hj
    have hsome1 : (remove_overlap_step df o iz).get? i
        = some ((remove_overlap_step df o iz).get ⟨i, hj⟩) := List.get?_eq_get hj
    have hsome2 : (remove_overlap_step df o iz).get? i
        = some (if selectP df o iz (df.get ⟨i, hi⟩)
                then setVal o.var_name none (df.get ⟨i, hi⟩) else df.get ⟨i, hi⟩) := by
      rw [hstep, List.get?_map, List.get?_eq_get hi]
      rfl
    have hget := Option.some.inj (hsome1.symm.trans hsome2)
    refine ⟨?_, ?_, ?_, ?_⟩
    · intro hne
      rw [hget, if_neg ?_]
      intro hsel
      simp only [selectP, decide_eq_true_eq] at hsel
      exact hne hsel.2.1
    · intro hne
      rw [hget, if_neg ?_]
      intro hsel
      simp only [selectP, decide_eq_true_eq] at hsel
      exact hne hsel.2.2
    · intro v hv
      rw [hget]
      by_cases hsel : selectP df o iz (df.get ⟨i, hi⟩) = true
      · rw [if_pos hsel]
        exact getVal_setVal_ne o.var_name none _ v hv
      · rw [if_neg hsel]
    · intro hc hcnt hsome
      rw [hget, if_pos ?_]
      · exact getVal_setVal_none_self o.var_name _
      · simp only [selectP, decide_eq_true_eq]
        refine ⟨?_, hc, hcnt⟩
        simp only [filtP, decide_eq_true_eq]
        refine ⟨?_, hsome⟩
        rcases desig_mem o with hd | hd
        · exact Or.inl (hc.trans hd)
        · exact Or.inr (hc.trans hd)

/-- C3 witness: the amended statement evaluated on dfPartialOverlap at the
row of R for 1997 (a year outside the detected overlap). -/
theorem c3_nulls_only_detected_rows_witness :
    present dfPartialOverlap oRM = true ∧ 1 < dfPartialOverlap.length
    ∧ ((remove_overlap_step dfPartialOverlap oRM true).length = dfPartialOverlap.length
      ∧ ∀ (hj : 1 < (remove_overlap_step dfPartialOverlap oRM true).length),
        ((dfPartialOverlap.get ⟨1, by decide⟩).country ≠ desig oRM →
          (remove_overlap_step dfPartialOverlap oRM true).get ⟨1, hj⟩
            = dfPartialOverlap.get ⟨1, by decide⟩)
        ∧ (¬ (2 ≤ countKey dfPartialOverlap oRM true
              (keyOf true (dfPartialOverlap.get ⟨1, by decide⟩))) →
          (remove_overlap_step dfPartialOverlap oRM true).get ⟨1, hj⟩
            = dfPartialOverlap.get ⟨1, by decide⟩)
        ∧ (∀ v, v ≠ oRM.var_name →
            getVal ((remove_overlap_step dfPartialOverlap oRM true).get ⟨1, hj⟩) v
              = getVal (dfPartialOverlap.get ⟨1, by decide⟩) v)
        ∧ ((dfPartialOverlap.get ⟨1, by decide⟩).country = desig oRM →
            2 ≤ countKey dfPartialOverlap oRM true
              (keyOf true (dfPartialOverlap.get ⟨1, by decide⟩)) →
            (zf (getVal (dfPartialOverlap.get ⟨1, by decide⟩) oRM.var_name) true).isSome →
            getVal ((remove_overlap_step dfPartialOverlap oRM true).get ⟨1, hj⟩)
              oRM.var_name = none)) :=
  ⟨by decide, by decide,
   c3_nulls_only_detected_rows dfPartialOverlap oRM true (by decide) 1 (by decide)⟩

/-! ### Claim C1 -/

/-- C1: the detector's known-overlap membership test can never succeed —
it compares the detected-overlap dict against a set of key names — so a
warning is emitted for every detected overlap, including one declared in
the known-overlaps list: on data realizing exactly the configured
USSR/Russia overlap (which the intended comparison recognizes as known),
the warning is still emitted. -/
theorem c1_detector_warns_even_on_known_overlap :
    (∀ (rg mem : String) (ys : List Int) (v : String) (known : List Overlap),
      py_overlap_known rg mem ys v known = false)
    ∧ intended_overlap_known "USSR" "Russia" [1991, 1992, 1993, 1994, 1995, 1996]
        "Gas - Proved reserves" OVERLAPPING_DATA_TO_REMOVE_IN_AGGREGATES = true
    ∧ detect_overlapping_data_for_regions_and_members dfKnownOverlap
        ["country", "year", "country_code", "Gas - Proved reserves"]
        ["country", "year", "country_code"] HISTORIC_TO_CURRENT_REGION
        (some OVERLAPPING_DATA_TO_REMOVE_IN_AGGREGATES) true
      = [{ region := "USSR", member := "Russia",
           years := [1991, 1992, 1993, 1994, 1995, 1996],
           var_name := "Gas - Proved reserves" }] := by
  refine ⟨?_, by decide, by decide⟩
  intro rg mem ys v known
  simp [py_overlap_known, overlap_key_item, pyEqItem, new_overlap_item]

/-! ### Claim C9 -/

theorem lookup_eq_none_of_not_mem {β : Type} {l : List (String × β)} {a : String}
    (h : ∀ p ∈ l, p.1 ≠ a) : List.lookup a l = none := by
  induction l with
  | nil => rfl
  | cons p rest ih =>
      have hb : (a == p.1) = false := by
        simp only [beq_eq_false_iff_ne, ne_eq]
        exact fun hc => h p (List.mem_cons_self _ _) hc.symm
      simp only [List.lookup, hb]
      exact ih (fun q hq => h q (List.mem_cons_of_mem _ hq))

theorem filter_empty_members (df : List Row) (q : Row → Bool) :
    df.filter (fun r => r.country ∈ ([] : List String) ∧ q r = true) = [] := by
  rw [List.filter_eq_nil_iff]
  intro r _
  simp

/-- C9: a region absent from the membership mapping resolves to the empty
member list without error, the aggregation step appends no row for it, and
every aggregate slice of it is absent. -/
theorem c9_absent_region_resolves_empty (mapping : List (String × List String))
    (region : String) (df : List Row) (cols : List String)
    (h : region ∉ mapping.map Prod.fst) :
    list_countries_in_region mapping region = []
    ∧ add_region_aggregates_modelled df region
        (list_countries_in_region mapping region) cols = df
    ∧ ∀ v y, agg_value df (list_countries_in_region mapping region) v y = none := by
  have hne : ∀ p ∈ mapping, p.1 ≠ region := by
    intro p hp hc
    exact h (List.mem_map.mpr ⟨p, hp, hc⟩)
  have hempty : list_countries_in_region mapping region = [] := by
    unfold list_countries_in_region
    rw [lookup_eq_none_of_not_mem hne]
    rfl
  refine ⟨hempty, ?_, ?_⟩
  · unfold add_region_aggregates_modelled member_years
    rw [hempty]
    have hfil : df.filter (fun r =>
        r.country ∈ ([] : List String) ∧ cols.any (fun v => (getVal r v).isSome) = true) = [] :=
      filter_empty_members df _
    rw [hfil]
    simp [sortInts]
  · intro v y
    unfold agg_value contributions
    rw [hempty]
    have hfil : df.filter (fun r => r.country ∈ ([] : List String) ∧ r.year = y) = [] := by
      rw [List.filter_eq_nil_iff]
      intro r _
      simp
    rw [hfil]
    rfl

/-- C9 witness: an unknown region against a mapping knowing only Europe. -/
theorem c9_absent_region_resolves_empty_witness :
    ("Atlantis" ∉ mappingEurope.map Prod.fst)
    ∧ (list_countries_in_region mappingEurope "Atlantis" = []
      ∧ add_region_aggregates_modelled dfTwoMembers "Atlantis"
          (list_countries_in_region mappingEurope "Atlantis") ["x"] = dfTwoMembers
      ∧ ∀ v y, agg_value dfTwoMembers
          (list_countries_in_region mappingEurope "Atlantis") v y = none) :=
  ⟨by decide,
   c9_absent_region_resolves_empty mappingEurope "Atlantis" dfTwoMembers ["x"] (by decide)⟩

/-! ### Claim C5 -/

theorem mem_insertInt {x a : Int} {l : List Int} :
    x ∈ insertInt a l ↔ x = a ∨ x ∈ l := by
  induction l with
  | nil => simp [insertInt]
  | cons y ys ih =>
      unfold insertInt
      by_cases h : a ≤ y
      · rw [if_pos h]
        simp [List.mem_cons]
      · rw [if_neg h]
        simp only [List.mem_cons, ih]
        tauto

theorem mem_sortInts {x : Int} {l : List Int} : x ∈ sortInts l ↔ x ∈ l := by
  induction l with
  | nil => simp [sortInts]
  | cons a as ih =>
      show x ∈ insertInt a (sortInts as) ↔ _
      rw [mem_insertInt, ih]
      simp [List.mem_cons]

theorem lookupVal_cols_map (cols : List String) (v : String) (g : String → Option Int) :
    lookupVal v (cols.map (fun c => (c, g c)))
      = if v ∈ cols then some (g v) else none := by
  induction cols with
  | nil => simp [lookupVal]
  | cons c cs ih =>
      simp only [List.map_cons, lookupVal]
      by_cases h : c = v
      · subst h
        simp [List.mem_cons]
      · rw [if_neg h, ih]
        by_cases hv : v ∈ cs
        · rw [if_pos hv, if_pos (List.mem_cons_of_mem _ hv)]
        · rw [if_neg hv, if_neg ?_]
          intro hc
          rcases List.mem_cons.mp hc with h1 | h1
          · exact h h1.symm
          · exact hv h1

theorem valueAt_cons (r : Row) (t : List Row) (c : String) (y : Int) (v : String) :
    valueAt (r :: t) c y v
      = if r.country = c ∧ r.year = y then getVal r v else valueAt t c y v := rfl

theorem valueAt_append_no_match {dfa : List Row} (l : List Row) {c : String} {y : Int}
    (v : String) (h : ∀ r ∈ dfa, ¬ (r.country = c ∧ r.year = y)) :
    valueAt (dfa ++ l) c y v = valueAt l c y v := by
  induction dfa with
  | nil => rfl
  | cons r rest ih =>
      show valueAt (r :: (rest ++ l)) c y v = _
      rw [valueAt_cons, if_neg (h r (List.mem_cons_self _ _))]
      exact ih (fun s hs => h s (List.mem_cons_of_mem _ hs))

theorem valueAt_mk_rows (region : String) (vals : Int → List (String × Option Int))
    (ys : List Int) (y : Int) (v : String) :
    valueAt (ys.map (fun w => { country := region, year := w, values := vals w })) region y v
      = if y ∈ ys then (lookupVal v (vals y)).getD none else none := by
  induction ys with
  | nil => simp [valueAt]
  | cons y0 rest ih =>
      simp only [List.map_cons]
      unfold valueAt
      by_cases h : y0 = y
      · subst h
        rw [if_pos ⟨Eq.refl _, Eq.refl _⟩, if_pos (List.mem_cons_self _ _)]
        rfl
      · rw [if_neg (fun hc => h hc.2), ih]
        by_cases hv : y ∈ rest
        · rw [if_pos hv, if_pos (List.mem_cons_of_mem _ hv)]
        · rw [if_neg hv, if_neg ?_]
          intro hc
          rcases List.mem_cons.mp hc with h1 | h1
          · exact h h1.symm
          · exact hv h1

/-- C5: the modelled sum aggregation gives every region-year slice the sum
of the member contributions, and a year in which no member contributes any
data yields no region row at all (absence, not zero). -/
theorem c5_aggregate_sum_and_absence (df : List Row) (region : String)
    (members cols : List String) (v : String) (y : Int)
    (hreg : ∀ r ∈ df, r.country ≠ region) (hv : v ∈ cols) :
    valueAt (add_region_aggregates_modelled df region members cols) region y v
      = (if contributions df members v y = [] then none
         else some (contributions df members v y).sum)
    ∧ ((∀ r ∈ df, r.country ∈ members → r.year = y → ∀ c ∈ cols, getVal r c = none) →
        ∀ r2 ∈ add_region_aggregates_modelled df region members cols,
          ¬ (r2.country = region ∧ r2.year = y)) := by
  have hval : valueAt (add_region_aggregates_modelled df region members cols) region y v
      = if y ∈ member_years df members cols then agg_value df members v y else none := by
    unfold add_region_aggregates_modelled
    rw [valueAt_append_no_match _ v (fun r hr hc => hreg r hr hc.1)]
    rw [valueAt_mk_rows region
      (fun w => cols.map (fun c => (c, agg_value df members c w))) _ y v]
    by_cases hm : y ∈ member_years df members cols
    · rw [if_pos hm, if_pos hm, lookupVal_cols_map cols v
        (fun c => agg_value df members c y), if_pos hv]
      rfl
    · rw [if_neg hm, if_neg hm]
  constructor
  · rw [hval]
    by_cases hc : contributions df members v y = []
    · rw [if_pos hc]
      by_cases hm : y ∈ member_years df members cols
      · rw [if_pos hm]
        unfold agg_value
        rw [if_pos hc]
      · rw [if_neg hm]
    · rw [if_neg hc]
      have hy : y ∈ member_years df members cols := by
        obtain ⟨a, ha⟩ := List.exists_mem_of_ne_nil _ hc
        unfold contributions at ha
        obtain ⟨r, hr2, hv2⟩ := List.mem_filterMap.mp ha
        obtain ⟨hmem, hp⟩ := List.mem_filter.mp hr2
        simp only [decide_eq_true_eq] at hp
        unfold member_years
        rw [mem_sortInts, List.mem_dedup]
        apply List.mem_map.mpr
        refine ⟨r, ?_, hp.2⟩
        rw [List.mem_filter]
        refine ⟨hmem, ?_⟩
        simp only [decide_eq_true_eq]
        refine ⟨hp.1, ?_⟩
        exact List.any_eq_true.mpr ⟨v, hv, by rw [hv2]; rfl⟩
      rw [if_pos hy]
      unfold agg_value
      rw [if_neg hc]
  · intro hnone r2 hr2 hc2
    rcases List.mem_append.mp hr2 with hin | hin
    · exact hreg r2 hin hc2.1
    · obtain ⟨y2, hy2, hr2eq⟩ := List.mem_map.mp hin
      have hyy : y2 = y := by
        rw [← hc2.2, ← hr2eq]
      rw [hyy] at hy2
      unfold member_years at hy2
      rw [mem_sortInts, List.mem_dedup] at hy2
      obtain ⟨r, hrf, hry⟩ := List.mem_map.mp hy2
      obtain ⟨hrmem, hp⟩ := List.mem_filter.mp hrf
      simp only [decide_eq_true_eq] at hp
      obtain ⟨c, hcm, hcs⟩ := List.any_eq_true.mp hp.2
      have := hnone r hrmem hp.1 hry c hcm
      rw [this] at hcs
      cases hcs

/-- C5 witness: members A and B contribute 10 and 20 in 2000, so Europe
gets 30 for 2000; nobody contributes in 2001, so Europe has no 2001 row. -/
theorem c5_aggregate_sum_and_absence_witness :
    ((∀ r ∈ dfTwoMembers, r.country ≠ "Europe") ∧ "x" ∈ ["x"])
    ∧ (valueAt (add_region_aggregates_modelled dfTwoMembers "Europe" ["A", "B"] ["x"])
          "Europe" 2000 "x"
        = (if contributions dfTwoMembers ["A", "B"] "x" 2000 = [] then none
           else some (contributions dfTwoMembers ["A", "B"] "x" 2000).sum)
      ∧ ((∀ r ∈ dfTwoMembers, r.country ∈ ["A", "B"] → r.year = 2000 →
            ∀ c ∈ ["x"], getVal r c = none) →
          ∀ r2 ∈ add_region_aggregates_modelled dfTwoMembers "Europe" ["A", "B"] ["x"],
            ¬ (r2.country = "Europe" ∧ r2.year = 2000)))
    ∧ valueAt (add_region_aggregates_modelled dfTwoMembers "Europe" ["A", "B"] ["x"])
        "Europe" 2000 "x" = some 30
    ∧ (∀ r2 ∈ add_region_aggregates_modelled dfTwoMembers "Europe" ["A", "B"] ["x"],
        ¬ (r2.country = "Europe" ∧ r2.year = 2001)) :=
  ⟨⟨by decide, by decide⟩,
   c5_aggregate_sum_and_absence dfTwoMembers "Europe" ["A", "B"] ["x"] "x" 2000
     (by decide) (by decide),
   by decide, by decide⟩

/-! ### Claim C6 -/

theorem amend_values_eq (r : Row) :
    r.values.map (fun kv =>
        if has_marker kv.1 then (kv.1, some ((getVal r (base_name kv.1)).getD 0)) else kv)
      = r.values.map (fun kv =>
        (kv.1, if has_marker kv.1 then some ((getVal r (base_name kv.1)).getD 0) else kv.2)) :=
  List.map_congr_left (fun kv _ => by by_cases h : has_marker kv.1 = true <;> simp [h])

theorem getVal_amend_row (r : Row) (c : String) :
    getVal { r with values := r.values.map (fun kv =>
        if has_marker kv.1 then (kv.1, some ((getVal r (base_name kv.1)).getD 0)) else kv) } c
      = ((lookupVal c r.values).map (fun x =>
          if has_marker c then some ((getVal r (base_name c)).getD 0) else x)).getD none := by
  change (lookupVal c (r.values.map (fun kv =>
      if has_marker kv.1 then (kv.1, some ((getVal r (base_name kv.1)).getD 0)) else kv))).getD none
    = _
  rw [amend_values_eq,
    lookupVal_map_keydep (fun k x => if has_marker k then some ((getVal r (base_name k)).getD 0) else x)]

/-- C6: the zero-fill pass leaves non-region rows untouched; on region rows
every column carrying the zero-filled marker receives the matching
unmarked column's value when present and 0 when absent, and unmarked
columns keep their values. -/
theorem c6_zero_fill_amends_region_rows (df : List Row) (i : Nat) (r rOut : Row)
    (c : String) (h1 : df.get? i = some r)
    (h2 : (amend_zero_filled_variables_for_region_aggregates df).get? i = some rOut) :
    (r.country ∉ REGIONS_TO_ADD → rOut = r)
    ∧ (r.country ∈ REGIONS_TO_ADD → has_marker c = true →
        (lookupVal c r.values).isSome = true →
        getVal rOut c = some ((getVal r (base_name c)).getD 0))
    ∧ (r.country ∈ REGIONS_TO_ADD → has_marker c = false →
        getVal rOut c = getVal r c) := by
  unfold amend_zero_filled_variables_for_region_aggregates at h2
  rw [List.get?_map, h1, Option.map_some'] at h2
  have h4 : (if r.country ∈ REGIONS_TO_ADD then
      { r with values := r.values.map (fun kv =>
          if has_marker kv.1 then (kv.1, some ((getVal r (base_name kv.1)).getD 0)) else kv) }
    else r) = rOut := Option.some.inj h2
  refine ⟨?_, ?_, ?_⟩
  · intro hmem
    rw [← h4, if_neg hmem]
  · intro hmem hmk hsome
    rw [← h4, if_pos hmem, getVal_amend_row]
    obtain ⟨w, hw⟩ := Option.isSome_iff_exists.mp hsome
    rw [hw]
    simp [hmk]
  · intro hmem hmk
    rw [← h4, if_pos hmem, getVal_amend_row]
    cases hlv : lookupVal c r.values
    · simp [getVal, hlv]
    · simp [getVal, hlv, hmk]

/-- C6 witness: on a Europe row, the marked column of x takes the value 5
and the marked column of the absent y takes 0; the Spain row is untouched. -/
theorem c6_zero_fill_amends_region_rows_witness :
    (dfZeroFilled.get? 0 = some (dfZeroFilled.get ⟨0, by decide⟩)
      ∧ (amend_zero_filled_variables_for_region_aggregates dfZeroFilled).get? 0
        = some ((amend_zero_filled_variables_for_region_aggregates dfZeroFilled).get
            ⟨0, by decide⟩))
    ∧ (((dfZeroFilled.get ⟨0, by decide⟩).country ∉ REGIONS_TO_ADD →
        (amend_zero_filled_variables_for_region_aggregates dfZeroFilled).get ⟨0, by decide⟩
          = dfZeroFilled.get ⟨0, by decide⟩)
      ∧ ((dfZeroFilled.get ⟨0, by decide⟩).country ∈ REGIONS_TO_ADD →
          has_marker "x (zero filled)" = true →
          (lookupVal "x (zero filled)" (dfZeroFilled.get ⟨0, by decide⟩).values).isSome = true →
          getVal ((amend_zero_filled_variables_for_region_aggregates dfZeroFilled).get
              ⟨0, by decide⟩) "x (zero filled)"
            = some ((getVal (dfZeroFilled.get ⟨0, by decide⟩)
                (base_name "x (zero filled)")).getD 0))
      ∧ ((dfZeroFilled.get ⟨0, by decide⟩).country ∈ REGIONS_TO_ADD →
          has_marker "x (zero filled)" = false →
          getVal ((amend_zero_filled_variables_for_region_aggregates dfZeroFilled).get
              ⟨0, by decide⟩) "x (zero filled)"
            = getVal (dfZeroFilled.get ⟨0, by decide⟩) "x (zero filled)"))
    ∧ getVal ((amend_zero_filled_variables_for_region_aggregates dfZeroFilled).get
        ⟨0, by decide⟩) "x (zero filled)" = some 5
    ∧ getVal ((amend_zero_filled_variables_for_region_aggregates dfZeroFilled).get
        ⟨0, by decide⟩) "y (zero filled)" = some 0
    ∧ (amend_zero_filled_variables_for_region_aggregates dfZeroFilled).get? 1
        = dfZeroFilled.get? 1 :=
  ⟨⟨by decide, by decide⟩,
   c6_zero_fill_amends_region_rows dfZeroFilled 0 (dfZeroFilled.get ⟨0, by decide⟩)
     ((amend_zero_filled_variables_for_region_aggregates dfZeroFilled).get ⟨0, by decide⟩)
     "x (zero filled)" (by decide) (by decide),
   by decide, by decide, by decide⟩

/-! ### Claim C8 -/

theorem mem_insertKey {x a : Option Int} {l : List (Option Int)} :
    x ∈ insertKey a l ↔ x = a ∨ x ∈ l := by
  induction l with
  | nil => simp [insertKey]
  | cons y ys ih =>
      unfold insertKey
      by_cases h : optLe a y = true
      · rw [if_pos h]
        simp [List.mem_cons]
      · rw [if_neg h]
        simp only [List.mem_cons, ih]
        tauto

theorem mem_sortKeys {x : Option Int} {l : List (Option Int)} :
    x ∈ sortKeys l ↔ x ∈ l := by
  induction l with
  | nil => simp [sortKeys]
  | cons a as ih =>
      show x ∈ insertKey a (sortKeys as) ↔ _
      rw [mem_insertKey, ih]
      simp [List.mem_cons]

theorem rows_all_value {df : List Row} {c : String} {y : Int} {v : String}
    (hcnt : df.countP (fun r => r.country = c ∧ r.year = y) ≤ 1)
    (hval : valueAt df c y v = some 0) :
    ∀ r ∈ df, r.country = c → r.year = y → getVal r v = some 0 := by
  induction df with
  | nil =>
      intro r hr
      cases hr
  | cons r0 rest ih =>
      rw [valueAt_cons] at hval
      rw [List.countP_cons] at hcnt
      by_cases h0 : r0.country = c ∧ r0.year = y
      · rw [if_pos h0] at hval
        have hone : (if (fun r => decide (r.country = c ∧ r.year = y)) r0 then 1 else 0) = 1 := by
          simp [h0]
        rw [hone] at hcnt
        have hz : rest.countP (fun r => r.country = c ∧ r.year = y) = 0 := by omega
        intro r hr hc hy
        rcases List.mem_cons.mp hr with hr1 | hr1
        · subst hr1
          exact hval
        · exfalso
          have := List.countP_eq_zero.mp hz r hr1
          simp only [decide_eq_true_eq] at this
          exact this ⟨hc, hy⟩
      · rw [if_neg h0] at hval
        intro r hr hc hy
        rcases List.mem_cons.mp hr with hr1 | hr1
        · subst hr1
          exact absurd ⟨hc, hy⟩ h0
        · refine ih ?_ hval r hr1 hc hy
          exact le_trans (Nat.le_add_right _ _) hcnt

theorem zf_zero_none : zf (some 0) true = none := by decide

theorem countKey_zero_side_le_one (df : List Row) (o : Overlap) (y : Int)
    (hra : df.countP (fun r => r.country = o.region ∧ r.year = y) ≤ 1)
    (hrb : df.countP (fun r => r.country = o.member ∧ r.year = y) ≤ 1)
    (hz : valueAt df o.region y o.var_name = some 0
        ∨ valueAt df o.member y o.var_name = some 0) :
    countKey df o true (some y) ≤ 1 := by
  rw [countKey_eq_countP]
  rcases hz with hz | hz
  · refine le_trans (List.countP_mono_left ?_) hrb
    intro r hr hp
    simp only [Bool.and_eq_true, decide_eq_true_eq, filtP] at hp
    have hyy : r.year = y := year_of_keyOf hp.1
    rcases hp.2.1 with hc | hc
    · exfalso
      have h0 := rows_all_value hra hz r hr hc hyy
      have := hp.2.2
      rw [h0, zf_zero_none] at this
      cases this
    · simp only [decide_eq_true_eq]
      exact ⟨hc, hyy⟩
  · refine le_trans (List.countP_mono_left ?_) hra
    intro r hr hp
    simp only [Bool.and_eq_true, decide_eq_true_eq, filtP] at hp
    have hyy : r.year = y := year_of_keyOf hp.1
    rcases hp.2.1 with hc | hc
    · simp only [decide_eq_true_eq]
      exact ⟨hc, hyy⟩
    · exfalso
      have h0 := rows_all_value hrb hz r hr hc hyy
      have := hp.2.2
      rw [h0, zf_zero_none] at this
      cases this

theorem countP_pairs_eq (l : List Row) (v : String) (y : Int) :
    ((l.filterMap (fun r => match keyOf true r, zf (getVal r v) true with
        | some w, some a => some (w, a)
        | _, _ => none)).countP (fun p => p.1 = y))
      = l.countP (fun r => decide (keyOf true r = some y)
          && (zf (getVal r v) true).isSome) := by
  induction l with
  | nil => rfl
  | cons r rest ih =>
      rw [List.filterMap_cons, List.countP_cons]
      rcases hk : keyOf true r with _ | w
      · simp only [hk]
        rw [ih]
        simp [hk]
      · rcases hzv : zf (getVal r v) true with _ | a
        · simp only [hk, hzv]
          rw [ih]
          simp [hk, hzv]
        · simp only [hk, hzv, List.countP_cons, ih]
          by_cases hw : w = y
          · simp [hw, hk]
          · simp [hw, hk, hzv]

/-- C8: with ignore_zeros, a (region, member, variable, year) slice in
which the region's or the member's value is exactly 0 is never reported by
the detector and never counted as a duplicated overlapping year by the
remover's re-verification. -/
theorem c8_zero_values_never_overlap (df : List Row) (rg mem v : String) (y : Int)
    (h1 : df.countP (fun r => r.country = rg ∧ r.year = y) ≤ 1)
    (h2 : df.countP (fun r => r.country = mem ∧ r.year = y) ≤ 1)
    (hz : valueAt df rg y v = some 0 ∨ valueAt df mem y v = some 0) :
    y ∉ detect_overlap_years df rg mem v true
    ∧ ∀ (e : EntityToNull) (ys : List Int),
        ¬ (2 ≤ countKey df { region := rg, member := mem,
                             entity_to_make_nan := e,
                             years := ys, var_name := v } true (some y))
        ∧ (some y) ∉ overlapKeysR df { region := rg, member := mem,
                                       entity_to_make_nan := e,
                                       years := ys, var_name := v } true := by
  have hck : ∀ (e : EntityToNull) (ys : List Int),
      ¬ (2 ≤ countKey df { region := rg, member := mem,
                           entity_to_make_nan := e,
                           years := ys, var_name := v } true (some y)) := by
    intro e ys hge
    have := countKey_zero_side_le_one df
      { region := rg, member := mem, entity_to_make_nan := e, years := ys, var_name := v }
      y h1 h2 hz
    omega
  refine ⟨?_, fun e ys => ⟨hck e ys, ?_⟩⟩
  · intro hy
    unfold detect_overlap_years at hy
    rw [mem_sortInts] at hy
    have hpred := (List.mem_filter.mp hy).2
    simp only [decide_eq_true_eq] at hpred
    have hbound : (combined_pairs df rg mem v true).countP (fun p => p.1 = y) ≤ 1 := by
      unfold combined_pairs
      rw [List.filterMap_append, List.countP_append, countP_pairs_eq, countP_pairs_eq,
        List.countP_filter, List.countP_filter]
      rcases hz with hz | hz
      · have hA : df.countP (fun r => (decide (keyOf true r = some y)
            && (zf (getVal r v) true).isSome) && decide (r.country = rg)) = 0 := by
          rw [List.countP_eq_zero]
          intro r hr hp
          simp only [Bool.and_eq_true, decide_eq_true_eq] at hp
          have hyy : r.year = y := year_of_keyOf hp.1.1
          have h0 := rows_all_value h1 hz r hr hp.2 hyy
          have hs := hp.1.2
          rw [h0, zf_zero_none] at hs
          cases hs
        have hB : df.countP (fun r => (decide (keyOf true r = some y)
            && (zf (getVal r v) true).isSome) && decide (r.country = mem)) ≤ 1 := by
          refine le_trans (List.countP_mono_left ?_) h2
          intro r _ hp
          simp only [Bool.and_eq_true, decide_eq_true_eq] at hp ⊢
          exact ⟨hp.2, year_of_keyOf hp.1.1⟩
        omega
      · have hB : df.countP (fun r => (decide (keyOf true r = some y)
            && (zf (getVal r v) true).isSome) && decide (r.country = mem)) = 0 := by
          rw [List.countP_eq_zero]
          intro r hr hp
          simp only [Bool.and_eq_true, decide_eq_true_eq] at hp
          have hyy : r.year = y := year_of_keyOf hp.1.1
          have h0 := rows_all_value h2 hz r hr hp.2 hyy
          have hs := hp.1.2
          rw [h0, zf_zero_none] at hs
          cases hs
        have hA : df.countP (fun r => (decide (keyOf true r = some y)
            && (zf (getVal r v) true).isSome) && decide (r.country = rg)) ≤ 1 := by
          refine le_trans (List.countP_mono_left ?_) h1
          intro r _ hp
          simp only [Bool.and_eq_true, decide_eq_true_eq] at hp ⊢
          exact ⟨hp.2, year_of_keyOf hp.1.1⟩
        omega
    omega
  · intro hmem2
    unfold overlapKeysR at hmem2
    rw [mem_sortKeys] at hmem2
    have hpred := (List.mem_filter.mp hmem2).2
    simp only [decide_eq_true_eq] at hpred
    exact hck _ _ hpred

/-- C8 witness: region R reports a zero for x in 2000 while member M
reports 5; the year 2000 is not reported by the detector and not counted by
the remover. -/
theorem c8_zero_values_never_overlap_witness :
    (dfZeroValue.countP (fun r => r.country = "R" ∧ r.year = 2000) ≤ 1
      ∧ dfZeroValue.countP (fun r => r.country = "M" ∧ r.year = 2000) ≤ 1
      ∧ (valueAt dfZeroValue "R" 2000 "x" = some 0
        ∨ valueAt dfZeroValue "M" 2000 "x" = some 0))
    ∧ ((2000 : Int) ∉ detect_overlap_years dfZeroValue "R" "M" "x" true
      ∧ ∀ (e : EntityToNull) (ys : List Int),
          ¬ (2 ≤ countKey dfZeroValue { region := "R", member := "M",
                                        entity_to_make_nan := e,
                                        years := ys, var_name := "x" } true (some 2000))
          ∧ (some 2000) ∉ overlapKeysR dfZeroValue { region := "R", member := "M",
                                                     entity_to_make_nan := e,
                                                     years := ys, var_name := "x" } true) :=
  ⟨⟨by decide, by decide, by decide⟩,
   c8_zero_values_never_overlap dfZeroValue "R" "M" "x" 2000 (by decide) (by decide)
     (by decide)⟩

end BpReview
